import Mathlib

/-!
# Verification of the PortAuthority `registry` application

A shallow embedding of `src/registry/models.py` and `src/registry/views.py`:
the `Application` record, the `validate_port_range` validator, the
`full_address` property (scheme-stripping and trailing-slash removal),
`__str__`, Django field validation (`full_clean`) for the declared field
constraints, and the ordered, paginated list view.
-/

/-- The `Application` model: `protocol` (CharField), `url` (URLField),
`port` (PositiveIntegerField).  Ports are Python integers, embedded as `Int`. -/
structure Application where
  protocol : String
  url : String
  port : Int
deriving DecidableEq, Repr

/-- `validate_port_range` from `models.py`: raises a `ValidationError` with the
given message exactly when `value < 1 or value > 65535`; the embedding returns
`some message` for a raise and `none` for a silent pass. -/
def validate_port_range (value : Int) : Option String :=
  if value < 1 ∨ value > 65535 then
    some ("Port number must be between 1 and 65535. Got: " ++ toString value)
  else
    none

/-- One character of the regex class `[a-zA-Z0-9+.-]` used in
`full_address`'s pattern `^[a-zA-Z][a-zA-Z0-9+.-]*://`. -/
def isSchemeChar (c : Char) : Bool :=
  c.isAlphanum || c == '+' || c == '.' || c == '-'

/-- `re.match(r'^[a-zA-Z][a-zA-Z0-9+.-]*://', url)` as a Boolean: a leading
letter, a maximal run of scheme characters, then the literal `://`.  The star
is effectively greedy-deterministic because `:` and `/` are outside the class. -/
def startsWithScheme (cs : List Char) : Bool :=
  match cs with
  | [] => false
  | c :: rest =>
    c.isAlpha &&
      (match rest.dropWhile isSchemeChar with
       | ':' :: '/' :: '/' :: _ => true
       | _ => false)

/-- `re.sub(r'^[a-zA-Z][a-zA-Z0-9+.-]*://', '', url)` applied when the pattern
matches: drop the matched scheme prefix, otherwise return the input unchanged. -/
def dropScheme (cs : List Char) : List Char :=
  match cs with
  | [] => []
  | c :: rest =>
    if c.isAlpha then
      match rest.dropWhile isSchemeChar with
      | ':' :: '/' :: '/' :: tail => tail
      | _ => c :: rest
    else c :: rest

/-- Python's `str.rstrip('/')`: remove every trailing `'/'` character. -/
def rstripSlashes (cs : List Char) : List Char :=
  (cs.reverse.dropWhile (fun c => c == '/')).reverse

/-- The `clean_url` local variable of `full_address` after both steps:
scheme removal followed by trailing-slash removal. -/
def clean_url (url : String) : String :=
  String.mk (rstripSlashes (dropScheme url.data))

/-- The `full_address` property of `Application`:
`f"{self.protocol}://{clean_url}:{self.port}"`. -/
def Application.full_address (a : Application) : String :=
  a.protocol ++ "://" ++ clean_url a.url ++ ":" ++ toString a.port

/-- `Application.__str__`, which returns `self.full_address`. -/
def Application.__str__ (a : Application) : String :=
  a.full_address

/-- The `choices` list of the `protocol` CharField (the stored values). -/
def protocolChoices : List String :=
  ["http", "https", "ftp", "tcp", "udp"]

/-- Django `full_clean` field validation for the constraints declared on the
model: `protocol` max length 10 and enum membership, `url` max length 255 and
URL well-formedness, and the `validate_port_range` validator on `port`.
Returns the collected error messages; an empty list means validation succeeds.
The URL-format check is Django's `URLValidator` — framework code outside this
repository — so it is passed in abstractly as the predicate `urlValid`. -/
def full_clean (urlValid : String → Bool) (a : Application) : List String :=
  (if a.protocol.length > 10 then
    ["protocol: Ensure this value has at most 10 characters."] else [])
  ++ (if a.protocol ∈ protocolChoices then []
      else ["protocol: Value is not a valid choice."])
  ++ (if a.url.length > 255 then
       ["url: Ensure this value has at most 255 characters."] else [])
  ++ (if urlValid a.url then [] else ["url: Enter a valid URL."])
  ++ (match validate_port_range a.port with
      | some m => [m]
      | none => [])

/-- The ordering relation of the list views, `order_by("protocol", "url", "port")`:
ascending lexicographic comparison on the composite key `(protocol, url, port)`. -/
def appRel (a b : Application) : Prop :=
  a.protocol < b.protocol ∨
    (a.protocol = b.protocol ∧
      (a.url < b.url ∨ (a.url = b.url ∧ a.port ≤ b.port)))

instance : DecidableRel appRel := fun a b => by
  unfold appRel; infer_instance

/-- The record sequence produced by the list views: all stored records sorted
by `("protocol", "url", "port")`. -/
def orderedApplications (db : List Application) : List Application :=
  List.insertionSort appRel db

/-- One page of `ApplicationListView` with `paginate_by = 20` (`n` is the
1-based page number). -/
def applicationPage (db : List Application) (n : Nat) : List Application :=
  ((orderedApplications db).drop (20 * (n - 1))).take 20

/-- `Application.objects.count()`, reported as `total_applications`. -/
def total_applications (db : List Application) : Nat :=
  db.length

/-- A maximal run of scheme characters is consumed by `dropWhile` up to the
colon that terminates it (`:` is not a scheme character). -/
lemma dropWhile_scheme_run (s l : List Char)
    (hs : ∀ x ∈ s, isSchemeChar x = true) :
    (s ++ ':' :: l).dropWhile isSchemeChar = ':' :: l := by
  induction s with
  | nil => simp [List.dropWhile, isSchemeChar]
  | cons x xs ih =>
    have hx : isSchemeChar x = true := hs x (by simp)
    simp only [List.cons_append, List.dropWhile_cons, hx, if_true]
    exact ih (fun y hy => hs y (by simp [hy]))

/-- After dropping every leading `'/'`, the head is not `'/'`. -/
lemma head?_dropWhile_slash (l : List Char) :
    (l.dropWhile (fun c => c == '/')).head? ≠ some '/' := by
  induction l with
  | nil => simp [List.dropWhile]
  | cons x xs ih =>
    by_cases hx : x = '/'
    · subst hx
      simpa [List.dropWhile_cons] using ih
    · simp [List.dropWhile_cons, hx]

/-- `rstripSlashes` never leaves a trailing slash. -/
lemma rstripSlashes_no_trailing_slash (l : List Char) :
    (rstripSlashes l).getLast? ≠ some '/' := by
  unfold rstripSlashes
  rw [List.getLast?_reverse]
  exact head?_dropWhile_slash l.reverse

/-- A list without a trailing slash is unchanged by `rstripSlashes`. -/
lemma rstripSlashes_of_no_trailing_slash (l : List Char)
    (h : l.getLast? ≠ some '/') : rstripSlashes l = l := by
  unfold rstripSlashes
  rw [← List.head?_reverse] at h
  have : l.reverse.dropWhile (fun c => c == '/') = l.reverse := by
    cases hrev : l.reverse with
    | nil => simp [List.dropWhile]
    | cons x xs =>
      have hx : x ≠ '/' := by
        intro hx
        exact h (by rw [hrev, hx]; rfl)
      simp [List.dropWhile_cons, hx]
  rw [this, List.reverse_reverse]

/-- If the input does not match the scheme pattern, `dropScheme` is the identity. -/
lemma dropScheme_of_not_startsWithScheme (cs : List Char)
    (h : startsWithScheme cs = false) : dropScheme cs = cs := by
  cases cs with
  | nil => rfl
  | cons c rest =>
    simp only [startsWithScheme] at h
    simp only [dropScheme]
    by_cases hc : c.isAlpha
    · rw [if_pos hc]
      simp only [hc, Bool.true_and] at h
      split
      · rename_i tail heq
        rw [heq] at h
        simp at h
      · rfl
    · rw [if_neg hc]

/-- C1: the test suite (`test_full_address_property` and its siblings) demands
the naive concatenation `"https://https://example.com:443"`, but the
implementation strips the scheme already present in `url`, so on the tests'
own input it produces the single-scheme string instead. -/
theorem full_address_contradicts_test_expectation :
    Application.full_address ⟨"https", "https://example.com", 443⟩
        = "https://example.com:443" ∧
    Application.full_address ⟨"https", "https://example.com", 443⟩
        ≠ "https://https://example.com:443" := by
  constructor <;> decide

/-- C5: `full_address` is a pure function of `(protocol, url, port)`: records
agreeing on the three fields produce identical output. -/
theorem full_address_deterministic (a b : Application)
    (h1 : a.protocol = b.protocol) (h2 : a.url = b.url) (h3 : a.port = b.port) :
    a.full_address = b.full_address := by
  cases a; cases b
  cases h1; cases h2; cases h3
  rfl

/-- Witness for C5 at a concrete pair of equal-field records. -/
theorem full_address_deterministic_witness :
    (Application.full_address ⟨"https", "example.com", 443⟩
      = Application.full_address ⟨"https", "example.com", 443⟩) :=
  full_address_deterministic ⟨"https", "example.com", 443⟩
    ⟨"https", "example.com", 443⟩ rfl rfl rfl

/-- C6: the display representation `__str__` returns exactly `full_address`. -/
theorem str_eq_full_address (a : Application) :
    a.__str__ = a.full_address :=
  rfl

/-- C2: when `url` begins with a `scheme://` pattern (a letter followed by
scheme characters), `full_address` strips that scheme and any trailing
slashes of the remainder before prefixing the record's own protocol. -/
theorem full_address_strips_existing_scheme (a : Application) (c : Char)
    (s rest : List Char)
    (hurl : a.url.data = c :: (s ++ ':' :: '/' :: '/' :: rest))
    (hc : c.isAlpha = true) (hs : ∀ x ∈ s, isSchemeChar x = true) :
    a.full_address =
      a.protocol ++ "://" ++ String.mk (rstripSlashes rest) ++ ":"
        ++ toString a.port := by
  have hdrop : dropScheme (c :: (s ++ ':' :: '/' :: '/' :: rest)) = rest := by
    simp only [dropScheme]
    rw [if_pos hc, dropWhile_scheme_run s _ hs]
    rfl
  unfold Application.full_address clean_url
  rw [hurl, hdrop]

/-- Witness for C2 at the spec's concrete scenario:
`protocol="https", url="https://example.com/", port=443`. -/
theorem full_address_strips_existing_scheme_witness :
    Application.full_address ⟨"https", "https://example.com/", 443⟩
      = "https://example.com:443" := by
  have h := full_address_strips_existing_scheme
    ⟨"https", "https://example.com/", 443⟩ 'h' ['t', 't', 'p', 's']
    "example.com/".data (by decide) (by decide) (by decide)
  rw [h]
  decide

/-- C9: `full_address` removes every trailing slash: the portion of the
output before `:{port}` (namely `clean_url`) never ends with `'/'`, and a
url ending in `"///"` loses all three slashes. -/
theorem full_address_strips_all_trailing_slashes (a : Application) :
    (clean_url a.url).data.getLast? ≠ some '/' ∧
    a.full_address
      = a.protocol ++ "://" ++ clean_url a.url ++ ":" ++ toString a.port ∧
    clean_url "example.com///" = "example.com" := by
  refine ⟨?_, rfl, by decide⟩
  exact rstripSlashes_no_trailing_slash (dropScheme a.url.data)

/-- C10: on a url with no `scheme://` prefix and no trailing slash,
`full_address` is the naive concatenation `"{protocol}://{url}:{port}"`,
so Variant A and Variant B agree there. -/
theorem full_address_naive_on_scheme_free (a : Application)
    (h1 : startsWithScheme a.url.data = false)
    (h2 : a.url.data.getLast? ≠ some '/') :
    a.full_address = a.protocol ++ "://" ++ a.url ++ ":" ++ toString a.port := by
  unfold Application.full_address clean_url
  rw [dropScheme_of_not_startsWithScheme _ h1,
    rstripSlashes_of_no_trailing_slash _ h2]

/-- Witness for C10 on a scheme-free url. -/
theorem full_address_naive_on_scheme_free_witness :
    Application.full_address ⟨"http", "example.com", 80⟩
      = "http://example.com:80" := by
  have h := full_address_naive_on_scheme_free ⟨"http", "example.com", 80⟩
    (by decide) (by decide)
  rw [h]
  decide

/-- Every stored protocol choice fits the field's `max_length=10`. -/
lemma protocolChoices_length_le (p : String) (hp : p ∈ protocolChoices) :
    p.length ≤ 10 := by
  simp only [protocolChoices, List.mem_cons, List.mem_singleton] at hp
  rcases hp with rfl | rfl | rfl | rfl | rfl | h
  · decide
  · decide
  · decide
  · decide
  · decide
  · simp at h

/-- C3: on an otherwise-valid record, validation succeeds for every port in
`[1, 65535]`; for every port outside that range it fails, and the collected
errors contain `"Port number must be between 1 and 65535. Got: {value}"`. -/
theorem validate_succeeds_iff_port_in_range (urlValid : String → Bool)
    (a : Application) (hp : a.protocol ∈ protocolChoices)
    (hu : a.url.length ≤ 255) (hv : urlValid a.url = true) :
    ((1 ≤ a.port ∧ a.port ≤ 65535) → full_clean urlValid a = []) ∧
    (¬(1 ≤ a.port ∧ a.port ≤ 65535) →
      ("Port number must be between 1 and 65535. Got: " ++ toString a.port)
        ∈ full_clean urlValid a) := by
  have hlen := protocolChoices_length_le a.protocol hp
  constructor
  · intro hrange
    have h1 : ¬ a.protocol.length > 10 := by omega
    have h2 : ¬ a.url.length > 255 := by omega
    have h3 : ¬ (a.port < 1 ∨ a.port > 65535) := by omega
    simp [full_clean, validate_port_range, h1, h2, h3, hp, hv]
  · intro hrange
    have h3 : a.port < 1 ∨ a.port > 65535 := by omega
    simp [full_clean, validate_port_range, h3]

/-- Witness for C3 with `protocol="http", url="example.com", port=80`. -/
theorem validate_succeeds_iff_port_in_range_witness :
    full_clean (fun _ => true) ⟨"http", "example.com", 80⟩ = [] :=
  (validate_succeeds_iff_port_in_range (fun _ => true)
    ⟨"http", "example.com", 80⟩ (by decide) (by decide) rfl).1 (by decide)

/-- C4: on an otherwise-valid record, validation succeeds exactly when the
protocol is one of the five enumerated choices. -/
theorem validate_succeeds_iff_protocol_choice (urlValid : String → Bool)
    (a : Application) (hu : a.url.length ≤ 255) (hv : urlValid a.url = true)
    (hport : 1 ≤ a.port ∧ a.port ≤ 65535) :
    full_clean urlValid a = [] ↔ a.protocol ∈ protocolChoices := by
  constructor
  · intro h
    by_contra hp
    simp [full_clean, hp] at h
  · intro hp
    have hlen := protocolChoices_length_le a.protocol hp
    have h1 : ¬ a.protocol.length > 10 := by omega
    have h2 : ¬ a.url.length > 255 := by omega
    have h3 : ¬ (a.port < 1 ∨ a.port > 65535) := by omega
    simp [full_clean, validate_port_range, h1, h2, h3, hp, hv]

/-- Witness for C4 with `protocol="https", url="example.com", port=443`. -/
theorem validate_succeeds_iff_protocol_choice_witness :
    full_clean (fun _ => true) ⟨"https", "example.com", 443⟩ = [] :=
  (validate_succeeds_iff_protocol_choice (fun _ => true)
    ⟨"https", "example.com", 443⟩ (by decide) rfl (by decide)).mpr (by decide)

/-- C7: a url longer than 255 characters fails validation, and a protocol
longer than 10 characters fails validation. -/
theorem overlong_fields_fail_validation (urlValid : String → Bool)
    (a : Application) :
    (255 < a.url.length → full_clean urlValid a ≠ []) ∧
    (10 < a.protocol.length → full_clean urlValid a ≠ []) := by
  constructor
  · intro h hnil
    simp [full_clean, h] at hnil
  · intro h hnil
    simp [full_clean, h] at hnil

set_option maxRecDepth 4000 in
/-- Witness for C7: a 256-character url is rejected. -/
theorem overlong_fields_fail_validation_witness :
    full_clean (fun _ => true)
      ⟨"http", String.mk (List.replicate 256 'a'), 80⟩ ≠ [] :=
  (overlong_fields_fail_validation (fun _ => true)
    ⟨"http", String.mk (List.replicate 256 'a'), 80⟩).1 (by decide)

instance : IsTrans Application appRel := ⟨by
  intro a b c hab hbc
  unfold appRel at *
  rcases hab with h1 | ⟨e1, h1⟩ <;> rcases hbc with h2 | ⟨e2, h2⟩
  · exact Or.inl (lt_trans h1 h2)
  · exact Or.inl (e2 ▸ h1)
  · exact Or.inl (by rw [e1]; exact h2)
  · refine Or.inr ⟨e1.trans e2, ?_⟩
    rcases h1 with hu1 | ⟨eu1, hp1⟩ <;> rcases h2 with hu2 | ⟨eu2, hp2⟩
    · exact Or.inl (lt_trans hu1 hu2)
    · exact Or.inl (eu2 ▸ hu1)
    · exact Or.inl (by rw [eu1]; exact hu2)
    · exact Or.inr ⟨eu1.trans eu2, le_trans hp1 hp2⟩⟩

instance : IsTotal Application appRel := ⟨by
  intro a b
  unfold appRel
  rcases lt_trichotomy a.protocol b.protocol with h | h | h
  · exact Or.inl (Or.inl h)
  · rcases lt_trichotomy a.url b.url with h2 | h2 | h2
    · exact Or.inl (Or.inr ⟨h, Or.inl h2⟩)
    · rcases le_total a.port b.port with h3 | h3
      · exact Or.inl (Or.inr ⟨h, Or.inr ⟨h2, h3⟩⟩)
      · exact Or.inr (Or.inr ⟨h.symm, Or.inr ⟨h2.symm, h3⟩⟩)
    · exact Or.inr (Or.inr ⟨h.symm, Or.inl h2⟩)
  · exact Or.inr (Or.inl h)⟩

/-- C8: the list view presents all stored records (a permutation of the
store), sorted ascending by the composite key `(protocol, url, port)`, each
page holds at most 20 records, and the reported total equals the number of
listed records. -/
theorem list_view_contract (db : List Application) (n : Nat) :
    (orderedApplications db).Perm db ∧
    List.Sorted appRel (orderedApplications db) ∧
    (applicationPage db n).length ≤ 20 ∧
    total_applications db = (orderedApplications db).length := by
  refine ⟨List.perm_insertionSort appRel db,
    List.sorted_insertionSort appRel db, ?_, ?_⟩
  · have h := List.length_take 20 ((orderedApplications db).drop (20 * (n - 1)))
    simp only [applicationPage]
    omega
  · exact ((List.perm_insertionSort appRel db).length_eq).symm
